import Mathlib

/-!
# Shallow embedding of the GeoJSON area-aggregation pipeline

The program (src/main.rs) reads a GeoJSON document, and when it is a
FeatureCollection it processes every feature in parallel: the feature's
geometry value is converted to a typed geometry (fallible), its unsigned
planar area is computed, the grouping attribute "N03_004" is read from the
feature's properties, and the area is added to a mutex-guarded map from
city name to accumulated area.  Conversion failures are logged and skipped.
Afterwards the map is drained, sorted by area descending, and written as
CSV rows behind a fixed header.

Numbers are modelled as exact rationals in the base model (the program
uses f64; skip/error control flow, ordering, counts and the concrete area
scenarios below do not depend on rounding).  Where rounding is itself the
question — the order-dependence of the shared floating-point accumulation —
the development refines the += with an explicit IEEE-754 binary64 rounding
model (fp64Round below).  The mutex serializes all map updates, so an
execution with any worker count and any scheduling applies the per-feature
updates in some permutation of the input sequence; the base model folds
the features in input order and interleavings are quantified as
permutations of that order.
-/

/-- A planar coordinate, modelling a geo-types coordinate with exact
rational components in place of f64. -/
structure Coord where
  x : ℚ
  y : ℚ
deriving DecidableEq, Repr

/-- A ring / line string: an ordered sequence of coordinates
(geo-types LineString, named GeoRing since Mathlib reserves the bare name). -/
abbrev GeoRing := List Coord

/-- A polygon: one exterior ring and a list of interior (hole) rings
(geo-types Polygon). -/
structure GeoPolygon where
  exterior : GeoRing
  interiors : List GeoRing
deriving DecidableEq, Repr

/-- Typed geometry, modelling the geo-types Geometry enum (the target of
the try_into conversion in main.rs line 36). -/
inductive Geo where
  | point (c : Coord)
  | multiPoint (cs : List Coord)
  | lineString (r : GeoRing)
  | multiLineString (rs : List GeoRing)
  | polygon (p : GeoPolygon)
  | multiPolygon (ps : List GeoPolygon)
  | geometryCollection (gs : List Geo)
deriving Repr

/-- A GeoJSON position: an array of numbers (the geojson crate's
PointType, a Vec of f64). -/
abbrev Position := List ℚ

/-- Untyped GeoJSON geometry value, modelling the geojson crate's
Value enum (the field feature.geometry.value read in main.rs line 36). -/
inductive GeoValue where
  | point (p : Position)
  | multiPoint (ps : List Position)
  | lineString (ps : List Position)
  | multiLineString (ls : List (List Position))
  | polygon (rings : List (List Position))
  | multiPolygon (polys : List (List (List Position)))
  | geometryCollection (gs : List GeoValue)
deriving Repr

/-- Conversion of one GeoJSON position to a planar coordinate.
Modelled from the spec: the conversion performed by the external geojson
crate "may fail (e.g., unsupported geometry subtype, malformed coordinate
arrays)" (spec section 4.2); a position needs at least an x and a y, so a
position with fewer than two numbers is the malformed-coordinate failure
case.  Extra ordinates (altitude) are ignored, as in the crate. -/
def toCoord : Position → Except String Coord
  | x :: y :: _ => Except.ok ⟨x, y⟩
  | _ => Except.error "malformed coordinate array"

/-- geo-types LineString.close: a ring is closed in place when its first
and last points differ (geo-types Polygon::new closes every ring). -/
def closeRing (r : GeoRing) : GeoRing :=
  match r with
  | [] => []
  | p :: rest => if (p :: rest).getLast? = some p then p :: rest else (p :: rest) ++ [p]

/-- Conversion of a raw ring (list of positions) to a coordinate ring. -/
def toRing (ps : List Position) : Except String GeoRing :=
  ps.mapM toCoord

/-- Conversion of a raw polygon (list of rings, exterior first) to a typed
polygon, closing every ring as geo-types Polygon::new does.  A polygon
value with no rings yields a polygon with an empty exterior. -/
def toPolygon (rings : List (List Position)) : Except String GeoPolygon := do
  let ext ← toRing (rings.headD [])
  let ints ← (rings.drop 1).mapM toRing
  pure ⟨closeRing ext, ints.map closeRing⟩

mutual
/-- The fallible conversion from a GeoJSON geometry value to a typed
geometry: geometry.value.clone().try_into() at main.rs line 36.  It fails
exactly when some position in the value is malformed (see toCoord). -/
def tryIntoGeo : GeoValue → Except String Geo
  | .point p => do pure (Geo.point (← toCoord p))
  | .multiPoint ps => do pure (Geo.multiPoint (← ps.mapM toCoord))
  | .lineString ps => do pure (Geo.lineString (← toRing ps))
  | .multiLineString ls => do pure (Geo.multiLineString (← ls.mapM toRing))
  | .polygon rings => do pure (Geo.polygon (← toPolygon rings))
  | .multiPolygon polys => do pure (Geo.multiPolygon (← polys.mapM toPolygon))
  | .geometryCollection gs => do pure (Geo.geometryCollection (← tryIntoGeoList gs))

/-- Conversion of the members of a geometry collection, failing as soon as
one member fails. -/
def tryIntoGeoList : List GeoValue → Except String (List Geo)
  | [] => pure []
  | g :: gs => do pure ((← tryIntoGeo g) :: (← tryIntoGeoList gs))
end

/-- Determinant of two coordinates seen as vectors (geo-types
Line::determinant, used by the shoelace accumulation). -/
def det (a b : Coord) : ℚ :=
  a.x * b.y - a.y * b.x

/-- Coordinate subtraction (the shift applied by the geo crate's ring-area
routine for numerical robustness; it cancels exactly on closed rings). -/
def Coord.sub (a b : Coord) : Coord :=
  ⟨a.x - b.x, a.y - b.y⟩

/-- Twice the signed area of a ring: the geo crate's
twice_signed_ring_area, a shoelace sum of segment determinants with every
point shifted by the first point.  Rings with fewer than two points
contribute zero. -/
def twiceSignedRingArea (r : GeoRing) : ℚ :=
  match r with
  | [] => 0
  | [_] => 0
  | p0 :: rest =>
    ((p0 :: rest).zip rest).foldl
      (fun acc ab => acc + det (ab.1.sub p0) (ab.2.sub p0)) 0

/-- Signed area contributed by one ring (geo crate get_linestring_area). -/
def getLineStringArea (r : GeoRing) : ℚ :=
  twiceSignedRingArea r / 2

/-- Signed area of a polygon, as in the geo crate's Area for Polygon: the
absolute ring area of the exterior minus the absolute ring areas of the
interior rings (holes subtract regardless of their winding), the result
re-signed by the exterior's orientation. -/
def polygonSignedArea (p : GeoPolygon) : ℚ :=
  let area := getLineStringArea p.exterior
  let absTotal := p.interiors.foldl (fun total r => total - |getLineStringArea r|) |area|
  if area < 0 then -absTotal else absTotal

/-- Unsigned area of a polygon: absolute value of its signed area. -/
def polygonUnsignedArea (p : GeoPolygon) : ℚ :=
  |polygonSignedArea p|

mutual
/-- geo_geometry.unsigned_area() at main.rs line 39, following the geo
crate's Area implementations: points and lines have zero area, a polygon
has the absolute value of its signed area, a multi polygon sums the
unsigned areas of its member polygons, and a geometry collection sums the
unsigned areas of its members. -/
def unsignedArea : Geo → ℚ
  | .point _ => 0
  | .multiPoint _ => 0
  | .lineString _ => 0
  | .multiLineString _ => 0
  | .polygon p => polygonUnsignedArea p
  | .multiPolygon ps => unsignedPolygonSum ps
  | .geometryCollection gs => unsignedAreaSum gs

/-- Sum of the unsigned areas of a list of polygons (geo crate Area for
MultiPolygon). -/
def unsignedPolygonSum : List GeoPolygon → ℚ
  | [] => 0
  | p :: ps => polygonUnsignedArea p + unsignedPolygonSum ps

/-- Sum of the unsigned areas of the members of a geometry collection. -/
def unsignedAreaSum : List Geo → ℚ
  | [] => 0
  | g :: gs => unsignedArea g + unsignedAreaSum gs
end

/-- A JSON value, modelling serde_json Value as stored in a feature's
properties table. -/
inductive JValue where
  | null
  | bool (b : Bool)
  | num (q : ℚ)
  | str (s : String)
  | arr (elems : List JValue)
  | obj (fields : List (String × JValue))
deriving Repr

/-- serde_json Value::as_str: Some exactly on string values
(main.rs line 44). -/
def JValue.asStr : JValue → Option String
  | .str s => some s
  | _ => none

/-- properties.get(key) at main.rs line 43: lookup in the feature's
attribute table (a JSON object with unique keys). -/
def jsonGet (props : List (String × JValue)) (key : String) : Option JValue :=
  (props.find? (fun kv => kv.1 == key)).map (fun kv => kv.2)

/-- A GeoJSON feature as main.rs reads it: an optional geometry value
(modelling feature.geometry, whose value field is the GeoValue) and an
optional attribute table (feature.properties). -/
structure Feature where
  geometry : Option GeoValue
  properties : Option (List (String × JValue))

/-- A parsed GeoJSON document: the geojson crate's GeoJson enum
(a bare geometry, a bare feature, or a feature collection). -/
inductive GeoJsonInput where
  | geometry (g : GeoValue)
  | feature (f : Feature)
  | featureCollection (features : List Feature)

/-- The grouping attribute name the program reads (main.rs line 43). -/
def groupKeyAttr : String := "N03_004"

/-- The aggregation map: city name to accumulated area, modelling the
HashMap of main.rs line 29 as an association list with unique keys
(hash order is irrelevant to every claim: lookups, sums, sortedness and
lengths are the observables). -/
abbrev AggMap := List (String × ℚ)

/-- map.entry(key).or_insert(0.0) += area at main.rs line 47: add the area
to the key's accumulator, inserting a fresh zero-initialised entry when the
key is absent.  Addition is exact here (the idealised model used by the
value/control-flow claims); accumulateF64 below is the same operation with
the += correctly rounded to binary64, which is where accumulation order
starts to matter. -/
def accumulate : AggMap → String → ℚ → AggMap
  | [], key, v => [(key, 0 + v)]
  | (k, v0) :: rest, key, v =>
    if k == key then (k, v0 + v) :: rest else (k, v0) :: accumulate rest key v

/-- map[key] as stored: the accumulated value for a key, none when the key
was never accumulated. -/
def lookupArea (m : AggMap) (key : String) : Option ℚ :=
  (m.find? (fun kv => kv.1 == key)).map (fun kv => kv.2)

/-- Pipeline state: the shared aggregation map plus the number of
"Error: ..." lines printed for failed geometry conversions
(main.rs line 52).  The program only logs those errors; this counter is
the model of that log. -/
structure AggState where
  areaMap : AggMap
  errorsLogged : ℕ
deriving Repr

/-- Processing of one feature, the body of the parallel for_each at
main.rs lines 34-55: if the feature has a geometry, convert it; on success
compute its unsigned area and, when the properties table holds a string
value under the grouping attribute, fold the area into the shared map; on
failure log one error line.  Features without geometry, without
properties, or without a string-valued grouping attribute change
nothing. -/
def processFeature (st : AggState) (f : Feature) : AggState :=
  match f.geometry with
  | none => st
  | some gv =>
    match tryIntoGeo gv with
    | .error _ => { st with errorsLogged := st.errorsLogged + 1 }
    | .ok g =>
      let area := unsignedArea g
      match f.properties with
      | none => st
      | some props =>
        match jsonGet props groupKeyAttr with
        | none => st
        | some v =>
          match v.asStr with
          | none => st
          | some cityName => { st with areaMap := accumulate st.areaMap cityName area }

/-- The parallel aggregation phase over a feature collection
(main.rs lines 34-55) in one fixed interleaving (input order).  The mutex
serializes the map updates, so any real execution applies the same
per-feature updates in some permutation of this order; permutation
invariance is proved below. -/
def runPipeline (features : List Feature) : AggState :=
  features.foldl processFeature ⟨[], 0⟩

/-- The contribution a feature makes to the shared map: the extracted
group key and unsigned area when the feature has a geometry that converts
successfully and a string-valued grouping attribute, none otherwise. -/
def contribution (f : Feature) : Option (String × ℚ) :=
  match f.geometry with
  | none => none
  | some gv =>
    match tryIntoGeo gv with
    | .error _ => none
    | .ok g =>
      match f.properties with
      | none => none
      | some props =>
        match (jsonGet props groupKeyAttr).bind JValue.asStr with
        | none => none
        | some cityName => some (cityName, unsignedArea g)

/-- Whether a feature's geometry conversion fails (the Err arm at
main.rs line 52). -/
def conversionFails (f : Feature) : Bool :=
  match f.geometry with
  | none => false
  | some gv =>
    match tryIntoGeo gv with
    | .error _ => true
    | .ok _ => false

/-- The unsigned areas of the features contributing to a given key:
conversion succeeded and the extracted key equals the given one. -/
def contributionsFor (features : List Feature) (key : String) : List ℚ :=
  ((features.filterMap contribution).filter (fun kv => kv.1 == key)).map
    (fun kv => kv.2)

/-- The comparator of the final sort at main.rs line 67 as a boolean
less-or-equal: sort_by with b.1.partial_cmp(&a.1).unwrap() orders pairs
ascending by the reversed area comparison, i.e. descending by area. -/
def areaDescLe (a b : String × ℚ) : Bool :=
  decide (b.2 ≤ a.2)

/-- Draining the map and sorting by area descending
(main.rs lines 60-67); the sort is stable, modelled by merge sort. -/
def sortedAreas (m : AggMap) : List (String × ℚ) :=
  m.mergeSort areaDescLe

/-- The aggregation phase of main: only a FeatureCollection document is
processed (the if let at main.rs line 32); any other document leaves the
map empty and logs nothing. -/
def aggregate (input : GeoJsonInput) : AggState :=
  match input with
  | .featureCollection c => runPipeline c
  | _ => ⟨[], 0⟩

/-- The CSV records written by main.rs lines 70-76: the fixed header row
followed by one row per sorted map entry (the numeric rendering of the
area stands in for f64 to_string; no claim depends on the digits). -/
def csvRecords (input : GeoJsonInput) : List (List String) :=
  ["City", "Area"] :: (sortedAreas (aggregate input).areaMap).map
    (fun kv => [kv.1, toString kv.2])

/-- The value main returns to its caller once the input document has been
parsed (main.rs line 87): always Ok(()); aggregation errors never reach
the return value, and I/O failures of the external file collaborators are
out of scope.  The argument records that the result is per-input. -/
def mainReturn (input : GeoJsonInput) : Except String Unit :=
  match input with
  | _ => Except.ok ()

/-- An f64 value as the final sort comparator sees it: either NaN or a
numeric value (the accumulated totals are finite, so infinities and signed
zero play no role in the comparison model). -/
inductive F64 where
  | nan
  | fin (q : ℚ)
deriving DecidableEq, Repr

/-- f64 partial comparison: defined on numeric values, none when either
operand is NaN. -/
def F64.pcmp : F64 → F64 → Option Ordering
  | .fin a, .fin b => some (compare a b)
  | _, _ => none

/-- The comparator closure of main.rs line 67 before the unwrap:
b.1.partial_cmp(&a.1) on (city, area) pairs, comparing the areas in
reversed order.  The unwrap panics exactly when this is none. -/
def sortCmp (a b : String × F64) : Option Ordering :=
  F64.pcmp b.2 a.2

/-- Floor of the base-2 logarithm of a positive rational (the value on
zero or negatives is irrelevant; fp64Round guards zero and takes an
absolute value first). -/
def ilog2 (q : ℚ) : ℤ :=
  let cand : ℤ := (Nat.log 2 q.num.natAbs : ℤ) - (Nat.log 2 q.den : ℤ)
  if q < 2 ^ cand then cand - 1 else cand

/-- Nearest integer, ties to even. -/
def roundTiesEven (q : ℚ) : ℤ :=
  let n := ⌊q⌋
  let f := q - n
  if f < 1/2 then n
  else if 1/2 < f then n + 1
  else if n % 2 = 0 then n else n + 1

/-- The IEEE-754 binary64 value nearest to an exact rational: scale into
the 53-bit significand range and round to nearest, ties to even.  This is
the normal-range rounding that defines f64 arithmetic; overflow to
infinity and subnormal underflow lie far outside every magnitude occurring
below and are not modelled. -/
def fp64Round (q : ℚ) : ℚ :=
  if q = 0 then 0
  else
    let e : ℤ := ilog2 |q| - 52
    (roundTiesEven (q / 2 ^ e) : ℚ) * 2 ^ e

/-- f64 addition: the exact sum, correctly rounded (IEEE-754 semantics of
the += at main.rs line 47). -/
def fp64Add (a b : ℚ) : ℚ := fp64Round (a + b)

/-- map.entry(key).or_insert(0.0) += area, as accumulate above, but with
the += performed in IEEE binary64 arithmetic instead of exact rational
addition.  Because f64 addition is not associative, the value stored for a
key may depend on the order in which its contributions arrive. -/
def accumulateF64 : AggMap → String → ℚ → AggMap
  | [], key, v => [(key, fp64Add 0 v)]
  | (k, v0) :: rest, key, v =>
    if k == key then (k, fp64Add v0 v) :: rest else (k, v0) :: accumulateF64 rest key v

/-- processFeature with the accumulation's += in f64 arithmetic.  The
per-feature area value itself is schedule-independent (each worker
computes it from its own feature alone), and for the features used below
every intermediate of the f64 shoelace evaluation is an exactly
representable dyadic, so keeping the area computation exact while rounding
the shared += is faithful to an f64 execution on those inputs. -/
def processFeatureF64 (st : AggState) (f : Feature) : AggState :=
  match f.geometry with
  | none => st
  | some gv =>
    match tryIntoGeo gv with
    | .error _ => { st with errorsLogged := st.errorsLogged + 1 }
    | .ok g =>
      let area := unsignedArea g
      match f.properties with
      | none => st
      | some props =>
        match jsonGet props groupKeyAttr with
        | none => st
        | some v =>
          match v.asStr with
          | none => st
          | some cityName =>
            { st with areaMap := accumulateF64 st.areaMap cityName area }

/-- The aggregation phase under one interleaving with f64 accumulation:
the schedule determines the order in which the serialized += updates hit
the shared map, modelled as folding the features in the given order. -/
def runPipelineF64 (features : List Feature) : AggState :=
  features.foldl processFeatureF64 ⟨[], 0⟩

/-- The map component of one f64 feature step in isolation. -/
def applyFeatureF64 (m : AggMap) (f : Feature) : AggMap :=
  match contribution f with
  | none => m
  | some kv => accumulateF64 m kv.1 kv.2

/-- A rectangle of width 2^27 and height 2^26 (area 2^53) for city "A";
all coordinates and every intermediate of its f64 area evaluation are
exactly representable doubles. -/
def hugeRectFeature : Feature :=
  ⟨some (GeoValue.polygon
      [[[0, 0], [134217728, 0], [134217728, 67108864], [0, 67108864]]]),
   some [(groupKeyAttr, JValue.str "A")]⟩

/-- A unit square (area 1) for city "A". -/
def unitSquareFeature : Feature :=
  ⟨some (GeoValue.polygon [[[0, 0], [1, 0], [1, 1], [0, 1]]]),
   some [(groupKeyAttr, JValue.str "A")]⟩

/-- The converted geometry of hugeRectFeature. -/
def hugeRectGeo : Geo :=
  Geo.polygon ⟨[⟨0, 0⟩, ⟨134217728, 0⟩, ⟨134217728, 67108864⟩, ⟨0, 67108864⟩,
    ⟨0, 0⟩], []⟩

/-- The converted geometry of unitSquareFeature. -/
def unitSquareGeo : Geo :=
  Geo.polygon ⟨[⟨0, 0⟩, ⟨1, 0⟩, ⟨1, 1⟩, ⟨0, 1⟩, ⟨0, 0⟩], []⟩

/-- The map component of one feature step in isolation: fold the feature's
contribution, if any, into the map. -/
def applyFeature (m : AggMap) (f : Feature) : AggMap :=
  match contribution f with
  | none => m
  | some kv => accumulate m kv.1 kv.2

/-- One feature step splits into its map effect and its error effect. -/
theorem processFeature_eq (st : AggState) (f : Feature) :
    processFeature st f =
      ⟨applyFeature st.areaMap f,
       st.errorsLogged + (if conversionFails f then 1 else 0)⟩ := by
  obtain ⟨g?, p?⟩ := f
  cases g? with
  | none => rfl
  | some gv =>
    cases hg : tryIntoGeo gv with
    | error e => simp [processFeature, applyFeature, contribution, conversionFails, hg]
    | ok g =>
      cases p? with
      | none => simp [processFeature, applyFeature, contribution, conversionFails, hg]
      | some props =>
        cases hk : jsonGet props groupKeyAttr with
        | none => simp [processFeature, applyFeature, contribution, conversionFails, hg, hk]
        | some v =>
          cases hs : v.asStr with
          | none =>
            simp [processFeature, applyFeature, contribution, conversionFails, hg, hk, hs]
          | some city =>
            simp [processFeature, applyFeature, contribution, conversionFails, hg, hk, hs]

/-- The aggregation fold splits into the map fold and the error count. -/
theorem foldl_processFeature_eq (features : List Feature) (m : AggMap) (e : ℕ) :
    features.foldl processFeature ⟨m, e⟩ =
      ⟨features.foldl applyFeature m, e + features.countP conversionFails⟩ := by
  induction features generalizing m e with
  | nil => simp
  | cons f fs ih =>
    rw [List.foldl_cons, List.foldl_cons, processFeature_eq, ih]
    simp only [List.countP_cons, AggState.mk.injEq, true_and]
    split <;> omega

/-- The pipeline state, componentwise. -/
theorem runPipeline_eq (features : List Feature) :
    runPipeline features =
      ⟨features.foldl applyFeature [], features.countP conversionFails⟩ := by
  simpa [runPipeline] using foldl_processFeature_eq features [] 0

/-- Unfolding lemma for map lookups. -/
theorem lookupArea_cons (k0 : String) (v0 : ℚ) (rest : AggMap) (key : String) :
    lookupArea ((k0, v0) :: rest) key = if k0 = key then some v0 else lookupArea rest key := by
  by_cases h : k0 = key
  · simp [lookupArea, List.find?, h]
  · have hb : (k0 == key) = false := beq_eq_false_iff_ne.mpr h
    simp [lookupArea, List.find?, hb, h]

/-- Reading back an accumulate: the stored value for the accumulated key
grows by the delta (from zero for a fresh key); other keys are
untouched. -/
theorem lookupArea_accumulate (m : AggMap) (k : String) (v : ℚ) (key : String) :
    lookupArea (accumulate m k v) key =
      if key = k then some ((lookupArea m key).getD 0 + v) else lookupArea m key := by
  induction m with
  | nil =>
    by_cases h : key = k
    · subst h; simp [accumulate, lookupArea_cons, lookupArea]
    · have hb : ¬(k = key) := fun h2 => h h2.symm
      rw [show accumulate [] k v = [(k, 0 + v)] from rfl, lookupArea_cons]
      simp [hb, h, lookupArea]
  | cons kv rest ih =>
    obtain ⟨k0, v0⟩ := kv
    by_cases hk : k0 = k
    · subst hk
      have hb : (k0 == k0) = true := beq_self_eq_true k0
      by_cases h : key = k0
      · subst h
        simp [accumulate, hb, lookupArea_cons]
      · have hne : ¬(k0 = key) := fun h2 => h h2.symm
        simp [accumulate, hb, lookupArea_cons, h, hne]
    · have hb : (k0 == k) = false := beq_eq_false_iff_ne.mpr hk
      by_cases h : key = k0
      · subst h
        simp [accumulate, hb, lookupArea_cons, hk]
      · have hne : ¬(k0 = key) := fun h2 => h h2.symm
        simp [accumulate, hb, lookupArea_cons, hne, ih]

/-- Unfolding lemma for the per-key contribution list. -/
theorem contributionsFor_cons (f : Feature) (fs : List Feature) (key : String) :
    contributionsFor (f :: fs) key =
      match contribution f with
      | none => contributionsFor fs key
      | some kv =>
        if kv.1 = key then kv.2 :: contributionsFor fs key else contributionsFor fs key := by
  cases h : contribution f with
  | none => simp [contributionsFor, List.filterMap_cons, h]
  | some kv =>
    by_cases hkey : kv.1 = key
    · have hb : (kv.1 == key) = true := beq_iff_eq.mpr hkey
      simp [contributionsFor, List.filterMap_cons, h, List.filter_cons, hb, hkey]
    · have hb : (kv.1 == key) = false := beq_eq_false_iff_ne.mpr hkey
      simp [contributionsFor, List.filterMap_cons, h, List.filter_cons, hb, hkey]

/-- Master lemma, value part: after folding any feature list over any
starting map, the stored value for a key has grown by exactly the sum of
that key's contributions. -/
theorem lookupArea_foldl_getD (features : List Feature) (m : AggMap) (key : String) :
    (lookupArea (features.foldl applyFeature m) key).getD 0 =
      (lookupArea m key).getD 0 + (contributionsFor features key).sum := by
  induction features generalizing m with
  | nil => simp [contributionsFor]
  | cons f fs ih =>
    rw [List.foldl_cons, ih, contributionsFor_cons]
    cases h : contribution f with
    | none => simp [applyFeature, h]
    | some kv =>
      by_cases hkey : kv.1 = key
      · subst hkey
        simp [applyFeature, h, lookupArea_accumulate]
        ring
      · have hne : ¬(key = kv.1) := fun h2 => hkey h2.symm
        simp [applyFeature, h, lookupArea_accumulate, hkey, hne]

/-- Master lemma, presence part: a key is present after the fold exactly
when it was present before or some folded feature contributed to it. -/
theorem lookupArea_foldl_isSome (features : List Feature) (m : AggMap) (key : String) :
    (lookupArea (features.foldl applyFeature m) key).isSome = true ↔
      (lookupArea m key).isSome = true ∨ contributionsFor features key ≠ [] := by
  induction features generalizing m with
  | nil => simp [contributionsFor]
  | cons f fs ih =>
    rw [List.foldl_cons, ih, contributionsFor_cons]
    cases h : contribution f with
    | none => simp [applyFeature, h]
    | some kv =>
      by_cases hkey : kv.1 = key
      · subst hkey
        simp [applyFeature, h, lookupArea_accumulate]
      · have hne : ¬(key = kv.1) := fun h2 => hkey h2.symm
        simp only [applyFeature, h, hkey, if_neg hkey]
        rw [lookupArea_accumulate]
        simp [hne]

/-- A key is stored in the map exactly when its lookup succeeds. -/
theorem lookupArea_isSome_iff (m : AggMap) (key : String) :
    (lookupArea m key).isSome = true ↔ key ∈ m.map Prod.fst := by
  induction m with
  | nil => simp [lookupArea]
  | cons kv rest ih =>
    obtain ⟨k0, v0⟩ := kv
    by_cases h : k0 = key
    · simp [lookupArea_cons, h]
    · have hne : ¬(key = k0) := fun h2 => h h2.symm
      simp [lookupArea_cons, h, ih, hne]

/-- Accumulating extends the key sequence of the map by the new key when it
is fresh and leaves it unchanged otherwise. -/
theorem keys_accumulate (m : AggMap) (k : String) (v : ℚ) :
    (accumulate m k v).map Prod.fst =
      if k ∈ m.map Prod.fst then m.map Prod.fst else m.map Prod.fst ++ [k] := by
  induction m with
  | nil => simp [accumulate]
  | cons kv rest ih =>
    obtain ⟨k0, v0⟩ := kv
    by_cases h : k0 = k
    · have hb : (k0 == k) = true := beq_iff_eq.mpr h
      simp [accumulate, hb, h]
    · have hb : (k0 == k) = false := beq_eq_false_iff_ne.mpr h
      have hne : ¬(k = k0) := fun h2 => h h2.symm
      simp only [accumulate, hb, Bool.false_eq_true, if_false, List.map_cons, ih]
      split
      · next hmem => rw [if_pos (List.mem_cons_of_mem _ hmem)]
      · next hmem =>
        rw [if_neg (by simp [hne, hmem])]
        simp

/-- Folding features into a map with distinct keys keeps the keys
distinct. -/
theorem foldl_keys_nodup (features : List Feature) (m : AggMap)
    (hm : (m.map Prod.fst).Nodup) :
    ((features.foldl applyFeature m).map Prod.fst).Nodup := by
  induction features generalizing m with
  | nil => exact hm
  | cons f fs ih =>
    rw [List.foldl_cons]
    refine ih _ ?_
    cases h : contribution f with
    | none => simpa [applyFeature, h] using hm
    | some kv =>
      rw [applyFeature, h, keys_accumulate]
      split
      · exact hm
      · next hmem =>
        rw [List.nodup_append]
        refine ⟨hm, List.nodup_singleton kv.1, fun a ha hb => ?_⟩
        rw [List.mem_singleton] at hb
        exact hmem (hb ▸ ha)

/-- A key has a nonempty contribution list exactly when some feature
contributes to it. -/
theorem contributionsFor_ne_nil_iff (features : List Feature) (key : String) :
    contributionsFor features key ≠ [] ↔
      key ∈ (features.filterMap contribution).map Prod.fst := by
  constructor
  · intro h
    rcases List.exists_mem_of_ne_nil _ h with ⟨v, hv⟩
    rw [contributionsFor] at hv
    rcases List.mem_map.mp hv with ⟨kv, hkv, rfl⟩
    rcases List.mem_filter.mp hkv with ⟨hmem, heq⟩
    exact List.mem_map.mpr ⟨kv, hmem, beq_iff_eq.mp heq⟩
  · intro h hnil
    rcases List.mem_map.mp h with ⟨kv, hkv, rfl⟩
    have : kv.2 ∈ contributionsFor features kv.1 := by
      rw [contributionsFor]
      exact List.mem_map.mpr ⟨kv, List.mem_filter.mpr ⟨hkv, beq_self_eq_true _⟩, rfl⟩
    rw [hnil] at this
    exact absurd this (List.not_mem_nil _)

/-- Full characterization of the final map: a key maps to the sum of its
contributions, and is absent exactly when nothing contributed to it. -/
theorem lookupArea_runPipeline (features : List Feature) (key : String) :
    lookupArea (runPipeline features).areaMap key =
      if contributionsFor features key = [] then none
      else some ((contributionsFor features key).sum) := by
  rw [runPipeline_eq]
  have hg := lookupArea_foldl_getD features [] key
  have hs := lookupArea_foldl_isSome features [] key
  have hnil : lookupArea [] key = none := rfl
  rw [hnil] at hg hs
  simp only [Option.getD_none, Option.isSome_none, Bool.false_eq_true, false_or,
    zero_add] at hg hs
  by_cases h : contributionsFor features key = []
  · rw [if_pos h]
    cases ho : lookupArea (List.foldl applyFeature [] features) key with
    | none => rfl
    | some v =>
      exact absurd (hs.mp (by simp [ho])) (by simpa using h)
  · rw [if_neg h]
    cases ho : lookupArea (List.foldl applyFeature [] features) key with
    | none =>
      exact absurd (hs.mpr h) (by simp [ho])
    | some v =>
      rw [ho] at hg
      simpa using hg

/-- Whether a feature extracts a group key: the configured attribute is
present in the properties table with a string value. -/
def extractedKey (f : Feature) : Option String :=
  f.properties.bind (fun props => (jsonGet props groupKeyAttr).bind JValue.asStr)

/-- A feature whose conversion fails contributes nothing to the map. -/
theorem contribution_eq_none_of_fails (f : Feature) (h : conversionFails f = true) :
    contribution f = none := by
  obtain ⟨g?, p?⟩ := f
  cases g? with
  | none => simp [conversionFails] at h
  | some gv =>
    cases ht : tryIntoGeo gv with
    | error e => simp [contribution, ht]
    | ok g => simp [conversionFails, ht] at h

/-- A feature without geometry or without an extracted key contributes
nothing to the map. -/
theorem contribution_eq_none_of_skip (f : Feature)
    (h : f.geometry = none ∨ extractedKey f = none) :
    contribution f = none := by
  obtain ⟨g?, p?⟩ := f
  cases g? with
  | none => simp [contribution]
  | some gv =>
    rcases h with h | h
    · simp at h
    · cases ht : tryIntoGeo gv with
      | error e => simp [contribution, ht]
      | ok g =>
        cases p? with
        | none => simp [contribution, ht]
        | some props =>
          simp only [extractedKey, Option.some_bind] at h
          simp [contribution, ht, h]

/-- A non-contributing feature leaves the map fold unchanged. -/
theorem applyFeature_eq_self (m : AggMap) (f : Feature) (h : contribution f = none) :
    applyFeature m f = m := by
  simp [applyFeature, h]

/-- A feature of the source dataset shape: a square polygon of side 2 with
the given city name under the grouping attribute. -/
def squareFeature (city : String) : Feature :=
  ⟨some (GeoValue.polygon [[[0, 0], [2, 0], [2, 2], [0, 2]]]),
   some [(groupKeyAttr, JValue.str city)]⟩

/-- A feature whose geometry conversion fails: one of its polygon
positions has a single coordinate (a malformed coordinate array). -/
def malformedFeature : Feature :=
  ⟨some (GeoValue.polygon [[[5]]]),
   some [(groupKeyAttr, JValue.str "Atlantis")]⟩

/-- A feature with a present but malformed geometry and no properties
table at all (so no group key either). -/
def keylessMalformedFeature : Feature :=
  ⟨some (GeoValue.polygon [[[5]]]), none⟩

/-- C1: for every finite input feature sequence, after the pipeline
completes, the accumulated value stored for each group key equals the sum
of the unsigned areas of exactly those features whose extracted group key
equals that key and whose geometry conversion succeeded; features whose
conversion failed or whose key is absent or non-string contribute nothing
to any key (such features have no contribution, so they appear in no
contribution list, and the stored entry exists only when some feature
contributed). -/
theorem accumulated_value_is_contribution_sum (features : List Feature) (key : String) :
    (lookupArea (runPipeline features).areaMap key).getD 0 =
      (contributionsFor features key).sum ∧
    (lookupArea (runPipeline features).areaMap key = none ↔
      contributionsFor features key = []) := by
  rw [lookupArea_runPipeline]
  by_cases h : contributionsFor features key = []
  · simp [h]
  · simp [h]

/-- C9, amended: the mutex serializes the read-modify-write updates, so a
run with any worker count applies the same multiset of per-feature updates
in some permutation of the input order, and under exact (associative)
addition any two permutations of the same input (in particular the
1-worker in-order run and any N-worker interleaving) produce identical
stored totals for every key.  With the += in f64 this fails: rounding is
order-dependent, see the counterexample with two interleavings whose
stored totals differ. -/
theorem totals_deterministic_across_interleavings (fs fs' : List Feature)
    (h : fs.Perm fs') (key : String) :
    lookupArea (runPipeline fs).areaMap key =
      lookupArea (runPipeline fs').areaMap key := by
  have hperm : (contributionsFor fs key).Perm (contributionsFor fs' key) := by
    unfold contributionsFor
    exact ((h.filterMap contribution).filter _).map _
  rw [lookupArea_runPipeline, lookupArea_runPipeline, hperm.sum_eq]
  by_cases hnil : contributionsFor fs key = []
  · have hnil2 : contributionsFor fs' key = [] := by
      have hlen := hperm.length_eq
      rw [hnil] at hlen
      exact List.length_eq_zero.mp hlen.symm
    rw [if_pos hnil, if_pos hnil2]
  · have hnil2 : contributionsFor fs' key ≠ [] := by
      intro h2
      apply hnil
      have hlen := hperm.length_eq
      rw [h2] at hlen
      exact List.length_eq_zero.mp hlen
    rw [if_neg hnil, if_neg hnil2]

/-- C3 counterexample: the claim says the run reports the aggregate error
count to the caller, but a batch with one failed conversion logs one error
line while the value handed back to the caller is indistinguishable from
the zero-error run: errors are only printed (main.rs line 52), never
counted into the return value (main.rs line 87 returns unit). -/
theorem error_count_not_returned_to_caller :
    (runPipeline [malformedFeature]).errorsLogged = 1 ∧
    (runPipeline []).errorsLogged = 0 ∧
    mainReturn (GeoJsonInput.featureCollection [malformedFeature]) =
      mainReturn (GeoJsonInput.featureCollection []) :=
  ⟨rfl, rfl, rfl⟩

/-- C3 amended: each feature whose geometry conversion fails produces
exactly one logged error line (and is otherwise skipped), so the number of
logged errors equals the number of features with failing conversion; this
aggregate is observable only in the log, not returned to the caller. -/
theorem errors_logged_eq_failed_conversion_count (features : List Feature) :
    (runPipeline features).errorsLogged = features.countP conversionFails := by
  rw [runPipeline_eq]

/-- C5: a batch containing a feature whose geometry conversion fails does
not abort: the final map is exactly the one obtained from the batch with
the malformed feature removed (so every other feature's total is intact),
and exactly one more error line is logged. -/
theorem malformed_feature_never_aborts (pre post : List Feature) (bad : Feature)
    (hbad : conversionFails bad = true) :
    (runPipeline (pre ++ bad :: post)).areaMap = (runPipeline (pre ++ post)).areaMap ∧
    (runPipeline (pre ++ bad :: post)).errorsLogged =
      (runPipeline (pre ++ post)).errorsLogged + 1 := by
  rw [runPipeline_eq, runPipeline_eq]
  constructor
  · simp only [List.foldl_append, List.foldl_cons]
    rw [applyFeature_eq_self _ _ (contribution_eq_none_of_fails bad hbad)]
  · simp only [List.countP_append, List.countP_cons, hbad, if_true]
    omega

/-- Witness for C5 at a concrete batch: one malformed feature between two
square features. -/
theorem malformed_feature_never_aborts_witness :
    (runPipeline [squareFeature "A", malformedFeature, squareFeature "B"]).areaMap =
      (runPipeline [squareFeature "A", squareFeature "B"]).areaMap ∧
    (runPipeline [squareFeature "A", malformedFeature, squareFeature "B"]).errorsLogged =
      (runPipeline [squareFeature "A", squareFeature "B"]).errorsLogged + 1 :=
  malformed_feature_never_aborts [squareFeature "A"] [squareFeature "B"]
    malformedFeature rfl

/-- C8 counterexample: the claim says a feature whose grouping attribute
is absent records no error, but a feature with an absent key and a
malformed geometry does log an error: the error branch runs before key
extraction (main.rs lines 36-52), so this feature logs one error line even
though it touches no total. -/
theorem keyless_feature_logs_error_counterexample :
    extractedKey keylessMalformedFeature = none ∧
    (runPipeline [keylessMalformedFeature]).areaMap = [] ∧
    (runPipeline [keylessMalformedFeature]).errorsLogged = 1 :=
  ⟨rfl, rfl, rfl⟩

/-- C8 amended: a feature with no geometry, or whose grouping attribute is
absent or non-string, performs no aggregator mutation — every group total
is as if the feature were absent; and no error is recorded provided its
geometry conversion does not also fail (a skipped feature with a
present-but-malformed geometry still logs one error). -/
theorem skip_semantics_no_mutation (pre post : List Feature) (f : Feature)
    (h : f.geometry = none ∨ extractedKey f = none) :
    (runPipeline (pre ++ f :: post)).areaMap = (runPipeline (pre ++ post)).areaMap ∧
    (conversionFails f = false →
      runPipeline (pre ++ f :: post) = runPipeline (pre ++ post)) := by
  have hc := contribution_eq_none_of_skip f h
  constructor
  · rw [runPipeline_eq, runPipeline_eq]
    simp only [List.foldl_append, List.foldl_cons]
    rw [applyFeature_eq_self _ _ hc]
  · intro hfail
    rw [runPipeline_eq, runPipeline_eq]
    simp only [List.foldl_append, List.foldl_cons, List.countP_append, List.countP_cons,
      hfail, applyFeature_eq_self _ _ hc]
    simp

/-- Witness for C8 at a concrete batch: a geometry-less feature between
two square features changes nothing. -/
theorem skip_semantics_no_mutation_witness :
    (runPipeline [squareFeature "A", ⟨none, some [(groupKeyAttr, JValue.str "C")]⟩,
        squareFeature "B"]).areaMap =
      (runPipeline [squareFeature "A", squareFeature "B"]).areaMap ∧
    (conversionFails ⟨none, some [(groupKeyAttr, JValue.str "C")]⟩ = false →
      runPipeline [squareFeature "A", ⟨none, some [(groupKeyAttr, JValue.str "C")]⟩,
          squareFeature "B"] =
        runPipeline [squareFeature "A", squareFeature "B"]) :=
  skip_semantics_no_mutation [squareFeature "A"] [squareFeature "B"]
    ⟨none, some [(groupKeyAttr, JValue.str "C")]⟩ (Or.inl rfl)

/-- Witness for C9 at a concrete pair of interleavings: two features
swapped. -/
theorem totals_deterministic_witness :
    lookupArea (runPipeline [squareFeature "A", squareFeature "B"]).areaMap "A" =
      lookupArea (runPipeline [squareFeature "B", squareFeature "A"]).areaMap "A" :=
  totals_deterministic_across_interleavings
    [squareFeature "A", squareFeature "B"] [squareFeature "B", squareFeature "A"]
    (List.Perm.swap (squareFeature "B") (squareFeature "A") []) "A"

/-- The descending-by-area comparator is transitive. -/
theorem areaDescLe_trans (a b c : String × ℚ) (hab : areaDescLe a b = true)
    (hbc : areaDescLe b c = true) : areaDescLe a c = true := by
  simp only [areaDescLe, decide_eq_true_eq] at *
  exact le_trans hbc hab

/-- The descending-by-area comparator is total. -/
theorem areaDescLe_total (a b : String × ℚ) :
    (areaDescLe a b || areaDescLe b a) = true := by
  simp only [areaDescLe, Bool.or_eq_true, decide_eq_true_eq]
  exact le_total b.2 a.2

/-- C2: the drained-and-sorted output is ordered by accumulated area in
non-increasing order (ties in arbitrary order), its keys are pairwise
distinct, a key appears exactly when it received at least one
accumulation, and its length is the number of distinct keys that received
at least one accumulation. -/
theorem output_sorted_descending_and_complete (features : List Feature) :
    List.Pairwise (fun a b : String × ℚ => b.2 ≤ a.2)
      (sortedAreas (runPipeline features).areaMap) ∧
    ((sortedAreas (runPipeline features).areaMap).map Prod.fst).Nodup ∧
    (∀ key, key ∈ (sortedAreas (runPipeline features).areaMap).map Prod.fst ↔
      contributionsFor features key ≠ []) ∧
    (sortedAreas (runPipeline features).areaMap).length =
      ((features.filterMap contribution).map Prod.fst).dedup.length := by
  have hnodupM : ((runPipeline features).areaMap.map Prod.fst).Nodup := by
    rw [runPipeline_eq]
    exact foldl_keys_nodup features [] (by simp)
  have hperm : (sortedAreas (runPipeline features).areaMap).Perm
      (runPipeline features).areaMap :=
    List.mergeSort_perm _ areaDescLe
  have hkeys : ((sortedAreas (runPipeline features).areaMap).map Prod.fst).Perm
      ((runPipeline features).areaMap.map Prod.fst) := hperm.map Prod.fst
  have hmemM : ∀ key, key ∈ (runPipeline features).areaMap.map Prod.fst ↔
      contributionsFor features key ≠ [] := by
    intro key
    rw [← lookupArea_isSome_iff, lookupArea_runPipeline]
    by_cases h : contributionsFor features key = [] <;> simp [h]
  refine ⟨?_, hkeys.nodup_iff.mpr hnodupM, ?_, ?_⟩
  · exact (List.sorted_mergeSort areaDescLe_trans areaDescLe_total _).imp
      (fun hab => by simpa [areaDescLe, decide_eq_true_eq] using hab)
  · exact fun key => (hkeys.mem_iff).trans (hmemM key)
  · have h2 : ((runPipeline features).areaMap.map Prod.fst).Perm
        (((features.filterMap contribution).map Prod.fst).dedup) := by
      apply List.perm_of_nodup_nodup_toFinset_eq hnodupM (List.nodup_dedup _)
      ext a
      simp only [List.mem_toFinset, List.mem_dedup]
      rw [hmemM a, contributionsFor_ne_nil_iff]
    rw [hperm.length_eq, ← List.length_map (runPipeline features).areaMap Prod.fst,
      h2.length_eq]

/-- C4 counterexample: the sort comparator is partial_cmp followed by
unwrap (main.rs line 67); with a NaN area present the partial comparison
is none, so the unwrap panics — the comparison does not treat NaN as
smallest, contradicting the claim that it never panics for any pair of
floating-point areas. -/
theorem sort_comparator_panics_on_nan :
    sortCmp ("x", F64.nan) ("y", F64.fin 1) = none := rfl

/-- C4 amended: for every pair of non-NaN areas the comparator is defined
(the unwrap cannot panic) and orders by descending area; a NaN operand
yields none, i.e. the unwrap panics instead of ordering NaN smallest. -/
theorem sort_comparator_total_on_numbers (s t : String) (qa qb : ℚ) :
    sortCmp (s, F64.fin qa) (t, F64.fin qb) = some (compare qb qa) ∧
    (sortCmp (s, F64.fin qa) (t, F64.fin qb)).isSome = true ∧
    sortCmp (s, F64.nan) (t, F64.fin qb) = none :=
  ⟨rfl, rfl, rfl⟩

/-- C7: the square polygon with corners (0,0),(2,0),(2,2),(0,2) converts
successfully and its unsigned area is exactly 4; the same square with a
clockwise-wound square hole of area 1 converts successfully and its
unsigned area is exactly 3 (exact rationals model the f64 arithmetic,
which is itself exact on these dyadic inputs). -/
theorem square_and_hole_area_scenario :
    (∃ g, tryIntoGeo (GeoValue.polygon [[[0, 0], [2, 0], [2, 2], [0, 2]]]) =
        Except.ok g ∧ unsignedArea g = 4) ∧
    (∃ g, tryIntoGeo (GeoValue.polygon
        [[[0, 0], [2, 0], [2, 2], [0, 2]],
         [[1/2, 1/2], [1/2, 3/2], [3/2, 3/2], [3/2, 1/2]]]) =
        Except.ok g ∧ unsignedArea g = 3) := by
  constructor
  · refine ⟨_, rfl, ?_⟩
    norm_num [unsignedArea, polygonUnsignedArea, polygonSignedArea, getLineStringArea,
      twiceSignedRingArea, det, Coord.sub, List.zip, List.zipWith, List.foldl,
      closeRing, List.getLast?, Coord.mk.injEq]
  · refine ⟨_, rfl, ?_⟩
    norm_num [unsignedArea, polygonUnsignedArea, polygonSignedArea, getLineStringArea,
      twiceSignedRingArea, det, Coord.sub, List.zip, List.zipWith, List.foldl,
      closeRing, List.getLast?, Coord.mk.injEq]

/-- C10: when the parsed document is not a FeatureCollection (a bare
feature or a bare geometry), the aggregation phase is skipped entirely and
the program still succeeds: the CSV output is exactly the header row with
zero data rows and no error is logged; an empty feature collection
produces the same header-only output. -/
theorem non_collection_header_only :
    (∀ f : Feature, csvRecords (GeoJsonInput.feature f) = [["City", "Area"]] ∧
      (aggregate (GeoJsonInput.feature f)).errorsLogged = 0 ∧
      mainReturn (GeoJsonInput.feature f) = Except.ok ()) ∧
    (∀ g : GeoValue, csvRecords (GeoJsonInput.geometry g) = [["City", "Area"]] ∧
      (aggregate (GeoJsonInput.geometry g)).errorsLogged = 0 ∧
      mainReturn (GeoJsonInput.geometry g) = Except.ok ()) ∧
    (csvRecords (GeoJsonInput.featureCollection []) = [["City", "Area"]] ∧
      (aggregate (GeoJsonInput.featureCollection [])).errorsLogged = 0 ∧
      mainReturn (GeoJsonInput.featureCollection []) = Except.ok ()) :=
  by
  refine ⟨fun f => ⟨?_, rfl, rfl⟩, fun g => ⟨?_, rfl, rfl⟩, ?_, rfl, rfl⟩ <;>
    simp [csvRecords, aggregate, sortedAreas, runPipeline, List.mergeSort_nil]

mutual
/-- Unsigned area is non-negative for every geometry. -/
theorem unsignedArea_nonneg : ∀ g : Geo, 0 ≤ unsignedArea g
  | .point c => by simp [unsignedArea]
  | .multiPoint cs => by simp [unsignedArea]
  | .lineString r => by simp [unsignedArea]
  | .multiLineString rs => by simp [unsignedArea]
  | .polygon p => by simp [unsignedArea, polygonUnsignedArea, abs_nonneg]
  | .multiPolygon ps => by simpa [unsignedArea] using unsignedPolygonSum_nonneg ps
  | .geometryCollection gs => by simpa [unsignedArea] using unsignedAreaSum_nonneg gs

/-- The polygon-list sum of unsigned areas is non-negative. -/
theorem unsignedPolygonSum_nonneg : ∀ ps : List GeoPolygon, 0 ≤ unsignedPolygonSum ps
  | [] => by simp [unsignedPolygonSum]
  | p :: ps => by
    have h := unsignedPolygonSum_nonneg ps
    simp only [unsignedPolygonSum]
    have h2 : (0:ℚ) ≤ polygonUnsignedArea p := abs_nonneg _
    linarith

/-- The collection sum of unsigned areas is non-negative. -/
theorem unsignedAreaSum_nonneg : ∀ gs : List Geo, 0 ≤ unsignedAreaSum gs
  | [] => by simp [unsignedAreaSum]
  | g :: gs => by
    have h1 := unsignedArea_nonneg g
    have h2 := unsignedAreaSum_nonneg gs
    simp only [unsignedAreaSum]
    linarith
end

/-- Position-list conversion preserves length. -/
theorem toRing_length (ps : List Position) (r : GeoRing) (h : toRing ps = Except.ok r) :
    r.length = ps.length := by
  induction ps generalizing r with
  | nil =>
    simp only [toRing, List.mapM_nil, pure] at h
    cases h
    rfl
  | cons p ps ih =>
    rw [toRing, List.mapM_cons] at h
    cases hc : toCoord p with
    | error e => rw [hc] at h; cases h
    | ok c =>
      rw [hc] at h
      cases hr : ps.mapM toCoord with
      | error e => rw [hr] at h; cases h
      | ok cs =>
        rw [hr] at h
        cases h
        simpa using ih cs hr

/-- Every ring produced by a successful ring-list conversion comes from
one of the raw rings. -/
theorem mapM_toRing_mem (rs : List (List Position)) (ls : List GeoRing)
    (h : rs.mapM toRing = Except.ok ls) :
    ∀ l ∈ ls, ∃ raw ∈ rs, toRing raw = Except.ok l := by
  induction rs generalizing ls with
  | nil =>
    simp only [List.mapM_nil, pure] at h
    cases h
    intro l hl
    cases hl
  | cons r rs ih =>
    rw [List.mapM_cons] at h
    cases hc : toRing r with
    | error e => rw [hc] at h; cases h
    | ok c =>
      rw [hc] at h
      cases hr : rs.mapM toRing with
      | error e => rw [hr] at h; cases h
      | ok cs =>
        rw [hr] at h
        cases h
        intro l hl
        rcases List.mem_cons.mp hl with hl | hl
        · exact ⟨r, List.mem_cons_self r rs, hl ▸ hc⟩
        · rcases ih cs hr l hl with ⟨raw, hraw, hok⟩
          exact ⟨raw, List.mem_cons_of_mem r hraw, hok⟩

/-- A ring with at most two points has zero shoelace area once closed. -/
theorem twiceSignedRingArea_closeRing_degenerate (r : GeoRing) (h : r.length ≤ 2) :
    twiceSignedRingArea (closeRing r) = 0 := by
  match r with
  | [] => simp [closeRing, twiceSignedRingArea]
  | [a] =>
    simp [closeRing, twiceSignedRingArea]
  | [a, b] =>
    by_cases hab : b = a
    · subst hab
      simp [closeRing, twiceSignedRingArea, List.zip, List.zipWith, det, Coord.sub]
    · have hne : ¬([a, b].getLast? = some a) := by simp [hab]
      simp only [closeRing, if_neg hne]
      simp [twiceSignedRingArea, List.zip, List.zipWith, det, Coord.sub]
  | a :: b :: c :: t =>
    simp at h

/-- Folding zero-area rings subtracts nothing. -/
theorem foldl_zero_rings (ints : List GeoRing) (t : ℚ)
    (h : ∀ r ∈ ints, getLineStringArea r = 0) :
    ints.foldl (fun total r => total - |getLineStringArea r|) t = t := by
  induction ints generalizing t with
  | nil => rfl
  | cons r rs ih =>
    rw [List.foldl_cons, h r (List.mem_cons_self r rs), abs_zero, sub_zero]
    exact ih t (fun x hx => h x (List.mem_cons_of_mem r hx))

/-- C6: the area computation is total — every geometry value gets a value
(the model returns an exact rational, never failing) and that value is
non-negative; a polygon converted from degenerate rings (every raw ring
has at most two points, including the no-rings case) has area exactly 0;
and a multi polygon's unsigned area is the sum of the unsigned areas of
its constituent polygons. -/
theorem area_nonneg_degenerate_multipolygon :
    (∀ g : Geo, 0 ≤ unsignedArea g) ∧
    (∀ (rings : List (List Position)) (p : GeoPolygon),
      (∀ ring ∈ rings, ring.length ≤ 2) → toPolygon rings = Except.ok p →
      unsignedArea (Geo.polygon p) = 0) ∧
    (∀ ps : List GeoPolygon,
      unsignedArea (Geo.multiPolygon ps) =
        (ps.map (fun p => unsignedArea (Geo.polygon p))).sum) := by
  refine ⟨unsignedArea_nonneg, ?_, ?_⟩
  · intro rings p hdeg hok
    rw [toPolygon] at hok
    cases hext : toRing (rings.headD []) with
    | error e => rw [hext] at hok; cases hok
    | ok ext =>
      rw [hext] at hok
      cases hints : (rings.drop 1).mapM toRing with
      | error e =>
        rw [hints] at hok
        cases hok
      | ok ints =>
        rw [hints] at hok
        have hok2 : Except.ok (GeoPolygon.mk (closeRing ext) (ints.map closeRing)) =
            (Except.ok p : Except String GeoPolygon) := hok
        have hp : GeoPolygon.mk (closeRing ext) (ints.map closeRing) = p := by
          injection hok2
        subst hp
        have hextlen : ext.length ≤ 2 := by
          rw [toRing_length _ _ hext]
          cases rings with
          | nil => simp
          | cons r rs => simpa using hdeg r (List.mem_cons_self r rs)
        have hextarea : getLineStringArea (closeRing ext) = 0 := by
          rw [getLineStringArea, twiceSignedRingArea_closeRing_degenerate ext hextlen,
            zero_div]
        have hintszero : ∀ r ∈ ints.map closeRing, getLineStringArea r = 0 := by
          intro r hr
          rcases List.mem_map.mp hr with ⟨r0, hr0, rfl⟩
          rcases mapM_toRing_mem _ _ hints r0 hr0 with ⟨raw, hraw, hokraw⟩
          have hlen : r0.length ≤ 2 := by
            rw [toRing_length _ _ hokraw]
            exact hdeg raw (List.mem_of_mem_drop hraw)
          rw [getLineStringArea, twiceSignedRingArea_closeRing_degenerate r0 hlen,
            zero_div]
        simp only [unsignedArea, polygonUnsignedArea, polygonSignedArea]
        rw [hextarea, abs_zero, foldl_zero_rings _ _ hintszero]
        norm_num
  · intro ps
    induction ps with
    | nil => simp [unsignedArea, unsignedPolygonSum]
    | cons p ps ih =>
      simp only [unsignedArea, unsignedPolygonSum, List.map_cons, List.sum_cons] at *
      rw [ih]

/-- Witness for C6 at a concrete degenerate polygon: one two-point raw
ring, closed by conversion into a three-point spike of area zero. -/
theorem area_degenerate_witness :
    unsignedArea (Geo.polygon ⟨[⟨0, 0⟩, ⟨1, 1⟩, ⟨0, 0⟩], []⟩) = 0 :=
  area_nonneg_degenerate_multipolygon.2.1 [[[0, 0], [1, 1]]]
    ⟨[⟨0, 0⟩, ⟨1, 1⟩, ⟨0, 0⟩], []⟩ (by decide) rfl

/-- Computation rule for ilog2, for concrete instances. -/
theorem ilog2_eq (q : ℚ) (c : ℤ)
    (h1 : (Nat.log 2 q.num.natAbs : ℤ) - (Nat.log 2 q.den : ℤ) = c)
    (h2 : ¬ q < 2 ^ c) : ilog2 q = c := by
  simp only [ilog2, h1, if_neg h2]

/-- Computation rule for fp64Round, for concrete instances. -/
theorem fp64Round_eq (q : ℚ) (e : ℤ) (n : ℤ) (hq : q ≠ 0)
    (hlog : ilog2 |q| = e + 52) (hr : roundTiesEven (q / 2 ^ e) = n) :
    fp64Round q = (n : ℚ) * 2 ^ e := by
  simp only [fp64Round, if_neg hq, hlog, add_sub_cancel_right, hr]

/-- Rounding an exact integer changes nothing. -/
theorem roundTiesEven_intCast (n : ℤ) : roundTiesEven ((n : ℤ) : ℚ) = n := by
  simp [roundTiesEven, Int.floor_intCast]

/-- A tie half-way above an even integer rounds down to it. -/
theorem roundTiesEven_half_even (n : ℤ) (hn : n % 2 = 0) :
    roundTiesEven ((n : ℚ) + 1/2) = n := by
  have hf : ⌊(n : ℚ) + 1/2⌋ = n := by
    rw [Int.floor_eq_iff]
    constructor
    · linarith
    · linarith
  have hsub : ((n : ℚ) + 1/2) - (n : ℚ) = 1/2 := by ring
  simp only [roundTiesEven, hf, hsub]
  norm_num [hn]

/-- 2^53 has exponent 53. -/
theorem ilog2_two_pow_53 : ilog2 |(2:ℚ) ^ 53| = 1 + 52 := by
  have habs : |(2:ℚ) ^ 53| = ((9007199254740992 : ℕ) : ℚ) := by norm_num
  rw [habs]
  apply ilog2_eq
  · have hl : Nat.log 2 9007199254740992 = 53 :=
      Nat.log_eq_of_pow_le_of_lt_pow (by norm_num) (by norm_num)
    rw [Rat.num_natCast, Rat.den_natCast]
    norm_num
    rw [hl]
    rfl
  · norm_num

/-- 2^53 is exactly representable: rounding returns it unchanged. -/
theorem fp64Round_pow53 : fp64Round ((2:ℚ) ^ 53) = 2 ^ 53 := by
  have h := fp64Round_eq ((2:ℚ)^53) 1 4503599627370496 (by norm_num) ilog2_two_pow_53 ?hr
  · rw [h]; norm_num
  case hr =>
    have h2 : ((2:ℚ)^53) / 2 ^ (1:ℤ) = ((4503599627370496 : ℤ) : ℚ) := by norm_num
    rw [h2, roundTiesEven_intCast]

/-- 2^53 + 1 has exponent 53. -/
theorem ilog2_two_pow_53_add_one : ilog2 |(2:ℚ) ^ 53 + 1| = 1 + 52 := by
  have habs : |(2:ℚ) ^ 53 + 1| = ((9007199254740993 : ℕ) : ℚ) := by norm_num
  rw [habs]
  apply ilog2_eq
  · have hl : Nat.log 2 9007199254740993 = 53 :=
      Nat.log_eq_of_pow_le_of_lt_pow (by norm_num) (by norm_num)
    rw [Rat.num_natCast, Rat.den_natCast]
    norm_num
    rw [hl]
    rfl
  · norm_num

/-- 2^53 + 1 needs 54 bits, sits exactly half an ulp above the even
candidate 2^53, and rounds down to 2^53 by ties-to-even. -/
theorem fp64Round_pow53_add_one : fp64Round ((2:ℚ) ^ 53 + 1) = 2 ^ 53 := by
  have h := fp64Round_eq ((2:ℚ)^53 + 1) 1 4503599627370496 (by norm_num)
    ilog2_two_pow_53_add_one ?hr
  · rw [h]; norm_num
  case hr =>
    have h2 : ((2:ℚ)^53 + 1) / 2 ^ (1:ℤ) = ((4503599627370496 : ℤ) : ℚ) + 1/2 := by
      norm_num
    rw [h2, roundTiesEven_half_even 4503599627370496 (by norm_num)]

/-- 2^53 + 2 has exponent 53. -/
theorem ilog2_two_pow_53_add_two : ilog2 |(2:ℚ) ^ 53 + 2| = 1 + 52 := by
  have habs : |(2:ℚ) ^ 53 + 2| = ((9007199254740994 : ℕ) : ℚ) := by norm_num
  rw [habs]
  apply ilog2_eq
  · have hl : Nat.log 2 9007199254740994 = 53 :=
      Nat.log_eq_of_pow_le_of_lt_pow (by norm_num) (by norm_num)
    rw [Rat.num_natCast, Rat.den_natCast]
    norm_num
    rw [hl]
    rfl
  · norm_num

/-- 2^53 + 2 is exactly representable (an even 54-bit integer). -/
theorem fp64Round_pow53_add_two : fp64Round ((2:ℚ) ^ 53 + 2) = 2 ^ 53 + 2 := by
  have h := fp64Round_eq ((2:ℚ)^53 + 2) 1 4503599627370497 (by norm_num)
    ilog2_two_pow_53_add_two ?hr
  · rw [h]; norm_num
  case hr =>
    have h2 : ((2:ℚ)^53 + 2) / 2 ^ (1:ℤ) = ((4503599627370497 : ℤ) : ℚ) := by
      norm_num
    rw [h2, roundTiesEven_intCast]

/-- 1 has exponent 0. -/
theorem ilog2_one : ilog2 |(1:ℚ)| = -52 + 52 := by
  rw [abs_one]
  apply ilog2_eq
  · rw [Rat.num_one, Rat.den_one]
    simp [Nat.log_one_right]
  · norm_num

/-- 1 is exactly representable. -/
theorem fp64Round_one : fp64Round (1:ℚ) = 1 := by
  have h := fp64Round_eq 1 (-52) 4503599627370496 (by norm_num) ilog2_one ?hr
  · rw [h]
    rw [zpow_neg]
    norm_num
  case hr =>
    have h2 : (1:ℚ) / 2 ^ (-52:ℤ) = ((4503599627370496 : ℤ) : ℚ) := by
      rw [zpow_neg]
      norm_num
    rw [h2, roundTiesEven_intCast]

/-- 2 has exponent 1. -/
theorem ilog2_two : ilog2 |(2:ℚ)| = -51 + 52 := by
  rw [show |(2:ℚ)| = ((2:ℕ):ℚ) by norm_num]
  apply ilog2_eq
  · have hl : Nat.log 2 2 = 1 :=
      Nat.log_eq_of_pow_le_of_lt_pow (by norm_num) (by norm_num)
    rw [Rat.num_natCast, Rat.den_natCast]
    norm_num
    rw [hl]
  · norm_num

/-- 2 is exactly representable. -/
theorem fp64Round_two : fp64Round (2:ℚ) = 2 := by
  have h := fp64Round_eq 2 (-51) 4503599627370496 (by norm_num) ilog2_two ?hr
  · rw [h]
    rw [zpow_neg]
    norm_num
  case hr =>
    have h2 : (2:ℚ) / 2 ^ (-51:ℤ) = ((4503599627370496 : ℤ) : ℚ) := by
      rw [zpow_neg]
      norm_num
    rw [h2, roundTiesEven_intCast]

/-- One f64 feature step splits into its map effect and its error
effect. -/
theorem processFeatureF64_eq (st : AggState) (f : Feature) :
    processFeatureF64 st f =
      ⟨applyFeatureF64 st.areaMap f,
       st.errorsLogged + (if conversionFails f then 1 else 0)⟩ := by
  obtain ⟨g?, p?⟩ := f
  cases g? with
  | none => rfl
  | some gv =>
    cases hg : tryIntoGeo gv with
    | error e =>
      simp [processFeatureF64, applyFeatureF64, contribution, conversionFails, hg]
    | ok g =>
      cases p? with
      | none =>
        simp [processFeatureF64, applyFeatureF64, contribution, conversionFails, hg]
      | some props =>
        cases hk : jsonGet props groupKeyAttr with
        | none =>
          simp [processFeatureF64, applyFeatureF64, contribution, conversionFails, hg, hk]
        | some v =>
          cases hs : v.asStr with
          | none =>
            simp [processFeatureF64, applyFeatureF64, contribution, conversionFails,
              hg, hk, hs]
          | some city =>
            simp [processFeatureF64, applyFeatureF64, contribution, conversionFails,
              hg, hk, hs]

/-- The huge rectangle converts to its closed-ring polygon and contributes
under key "A". -/
theorem contribution_hugeRect :
    contribution hugeRectFeature = some ("A", unsignedArea hugeRectGeo) := rfl

/-- The unit square converts to its closed-ring polygon and contributes
under key "A". -/
theorem contribution_unitSquare :
    contribution unitSquareFeature = some ("A", unsignedArea unitSquareGeo) := rfl

/-- The rectangle's unsigned area is 2^53. -/
theorem unsignedArea_hugeRectGeo : unsignedArea hugeRectGeo = 2 ^ 53 := by
  norm_num [hugeRectGeo, unsignedArea, polygonUnsignedArea, polygonSignedArea,
    getLineStringArea, twiceSignedRingArea, det, Coord.sub, List.zip, List.zipWith,
    List.foldl]

/-- The unit square's unsigned area is 1. -/
theorem unsignedArea_unitSquareGeo : unsignedArea unitSquareGeo = 1 := by
  norm_num [unitSquareGeo, unsignedArea, polygonUnsignedArea, polygonSignedArea,
    getLineStringArea, twiceSignedRingArea, det, Coord.sub, List.zip, List.zipWith,
    List.foldl]

/-- Neither concrete feature fails conversion. -/
theorem concrete_features_convert :
    conversionFails hugeRectFeature = false ∧
    conversionFails unitSquareFeature = false := ⟨rfl, rfl⟩

/-- The in-order schedule (one worker): the rectangle lands first, then
each unit area is absorbed by the round-to-even tie at 2^53 + 1. -/
theorem runPipelineF64_rect_first :
    runPipelineF64 [hugeRectFeature, unitSquareFeature, unitSquareFeature] =
      ⟨[("A", (2:ℚ) ^ 53)], 0⟩ := by
  have s1 : processFeatureF64 ⟨[], 0⟩ hugeRectFeature = ⟨[("A", (2:ℚ) ^ 53)], 0⟩ := by
    rw [processFeatureF64_eq]
    simp only [applyFeatureF64, contribution_hugeRect, unsignedArea_hugeRectGeo,
      accumulateF64, fp64Add, zero_add, fp64Round_pow53, concrete_features_convert.1,
      Bool.false_eq_true, if_false, Nat.add_zero]
  have s2 : processFeatureF64 ⟨[("A", (2:ℚ) ^ 53)], 0⟩ unitSquareFeature =
      ⟨[("A", (2:ℚ) ^ 53)], 0⟩ := by
    rw [processFeatureF64_eq]
    simp only [applyFeatureF64, contribution_unitSquare, unsignedArea_unitSquareGeo,
      accumulateF64, beq_self_eq_true, if_true, fp64Add, fp64Round_pow53_add_one,
      concrete_features_convert.2, Bool.false_eq_true, if_false, Nat.add_zero]
  rw [runPipelineF64, List.foldl_cons, s1, List.foldl_cons, s2, List.foldl_cons, s2,
    List.foldl_nil]

/-- A schedule that delays the rectangle (possible with more than one
worker): the two unit areas combine first and survive in the total. -/
theorem runPipelineF64_rect_last :
    runPipelineF64 [unitSquareFeature, unitSquareFeature, hugeRectFeature] =
      ⟨[("A", (2:ℚ) ^ 53 + 2)], 0⟩ := by
  have t1 : processFeatureF64 ⟨[], 0⟩ unitSquareFeature = ⟨[("A", (1:ℚ))], 0⟩ := by
    rw [processFeatureF64_eq]
    simp only [applyFeatureF64, contribution_unitSquare, unsignedArea_unitSquareGeo,
      accumulateF64, fp64Add, zero_add, fp64Round_one, concrete_features_convert.2,
      Bool.false_eq_true, if_false, Nat.add_zero]
  have t2 : processFeatureF64 ⟨[("A", (1:ℚ))], 0⟩ unitSquareFeature =
      ⟨[("A", (2:ℚ))], 0⟩ := by
    rw [processFeatureF64_eq]
    simp only [applyFeatureF64, contribution_unitSquare, unsignedArea_unitSquareGeo,
      accumulateF64, beq_self_eq_true, if_true, fp64Add, concrete_features_convert.2,
      Bool.false_eq_true, if_false, Nat.add_zero]
    norm_num [fp64Round_two]
  have t3 : processFeatureF64 ⟨[("A", (2:ℚ))], 0⟩ hugeRectFeature =
      ⟨[("A", (2:ℚ) ^ 53 + 2)], 0⟩ := by
    rw [processFeatureF64_eq]
    simp only [applyFeatureF64, contribution_hugeRect, unsignedArea_hugeRectGeo,
      accumulateF64, beq_self_eq_true, if_true, fp64Add, concrete_features_convert.1,
      Bool.false_eq_true, if_false, Nat.add_zero]
    rw [show (2:ℚ) + 2 ^ 53 = 2 ^ 53 + 2 by ring, fp64Round_pow53_add_two]
  rw [runPipelineF64, List.foldl_cons, t1, List.foldl_cons, t2, List.foldl_cons, t3,
    List.foldl_nil]

/-- C9 counterexample: the two feature lists are permutations of each
other — the same input batch under two schedules the mutex permits (one
worker runs it in order; with more workers the rectangle's update can
arrive last) — yet the stored f64 totals for key "A" differ: 2^53 versus
2^53 + 2, because f64 addition is not associative (2^53 + 1 ties down to
2^53, while 1 + 1 accumulates to 2 before meeting 2^53).  Every area here
(2^53 and 1) and every intermediate of its area computation is exactly
representable, so only the shared += rounds. -/
theorem f64_totals_differ_across_interleavings :
    [hugeRectFeature, unitSquareFeature, unitSquareFeature].Perm
      [unitSquareFeature, unitSquareFeature, hugeRectFeature] ∧
    lookupArea (runPipelineF64
        [hugeRectFeature, unitSquareFeature, unitSquareFeature]).areaMap "A" =
      some ((2:ℚ) ^ 53) ∧
    lookupArea (runPipelineF64
        [unitSquareFeature, unitSquareFeature, hugeRectFeature]).areaMap "A" =
      some ((2:ℚ) ^ 53 + 2) ∧
    ((2:ℚ) ^ 53) ≠ (2:ℚ) ^ 53 + 2 := by
  refine ⟨?_, ?_, ?_, by norm_num⟩
  · exact (List.Perm.swap unitSquareFeature hugeRectFeature [unitSquareFeature]).trans
      (List.Perm.cons unitSquareFeature
        (List.Perm.swap unitSquareFeature hugeRectFeature []))
  · rw [runPipelineF64_rect_first]
    rfl
  · rw [runPipelineF64_rect_last]
    rfl
